import Mathlib

set_option maxRecDepth 8000

/-!
Shallow embedding of the DEFLATE_QPL compression codec
(`src/Compression/CompressionCodecDeflateQpl.cpp`): the hardware job pool
(`DeflateQplJobHWPool`), the hardware codec (`HardwareCodecDeflateQpl`),
the software codec (`SoftwareCodecDeflateQpl`) and the dispatch codec
(`CompressionCodecDeflateQpl`).

Driver calls (`qpl_init_job`, `qpl_execute_job`, `qpl_submit_job`,
`qpl_check_job`) are external; their outcomes enter the model as explicit
status parameters (oracles).  The random index stream of the pool's
`distribution(random_engine)` enters as a function `samples : Nat → Nat`.
-/

/-- Status values returned by the qpl driver.  `ok` is `QPL_STS_OK`,
`beingProcessed` is `QPL_STS_BEING_PROCESSED`; all other codes are
collapsed into `err`. -/
inductive QplStatus where
  | ok
  | beingProcessed
  | err (code : Nat)
deriving DecidableEq

/-- Error codes raised by the software codec (`ErrorCodes::CANNOT_COMPRESS`,
`ErrorCodes::CANNOT_DECOMPRESS`). -/
inductive QplErrorCode where
  | CANNOT_COMPRESS
  | CANNOT_DECOMPRESS
deriving DecidableEq

/-- Modelled from the spec: the pool capacity `DeflateQplJobHWPool::MAX_HW_JOB_NUMBER`,
declared in the header `Compression/CompressionCodecDeflateQpl.h` which is not
part of the provided sources.  The spec fixes `N` (job-slot count) as
"static, default 1024". -/
def MAX_HW_JOB_NUMBER : Nat := 1024

/-- Modelled from the spec: the `HardwareCodecDeflateQpl::RET_ERROR` sentinel,
declared in the missing header `Compression/CompressionCodecDeflateQpl.h`.
The spec reserves the value `0` as the "no id / error" sentinel (external job
ids are `N − index` precisely so that `0` never denotes a valid id), so the
sentinel is modelled as `0`. -/
def RET_ERROR : Nat := 0

/-- 2^32, the modulus of `uint32_t` arithmetic. -/
def UINT32_LIMIT : Nat := 4294967296

/-- State of the process-wide job pool `DeflateQplJobHWPool`:
`job_pool_ready` and the per-slot lock array `hw_job_ptr_locks`
(index `i` holds the lock of slot `i`; indices `≥ MAX_HW_JOB_NUMBER`
are unused). -/
structure PoolState where
  ready : Bool
  locks : Nat → Bool

/-- `DeflateQplJobHWPool::tryLockJob`: CAS the lock at `index` from
`false` to `true`; returns whether the CAS succeeded together with the
updated lock array. -/
def tryLockJob (index : Nat) (locks : Nat → Bool) : Bool × (Nat → Bool) :=
  if locks index then (false, locks) else (true, Function.update locks index true)

/-- `DeflateQplJobHWPool::unLockJob`: store `false` into the lock at `index`. -/
def unLockJob (index : Nat) (locks : Nat → Bool) : Nat → Bool :=
  Function.update locks index false

/-- The retry loop of `DeflateQplJobHWPool::acquireJob`.  The C++ loop keeps a
counter `retry` starting at `0`, increments it after every failed
`tryLockJob`, and returns `nullptr` once `retry > MAX_HW_JOB_NUMBER`; here the
remaining budget `b = MAX_HW_JOB_NUMBER − retry` is the recursion fuel, so the
loop gives up when a `tryLockJob` fails at budget `0`.  `k` indexes the random
sample stream and `tries` counts the `tryLockJob` calls performed so far.
Returns (acquired index or none, lock array, total `tryLockJob` calls). -/
def acquireJobGo (samples : Nat → Nat) (locks : Nat → Bool) :
    Nat → Nat → Nat → Option Nat × (Nat → Bool) × Nat
  | k, tries, 0 =>
    match tryLockJob (samples k) locks with
    | (true, locks1) => (some (samples k), locks1, tries + 1)
    | (false, _) => (none, locks, tries + 1)
  | k, tries, b + 1 =>
    match tryLockJob (samples k) locks with
    | (true, locks1) => (some (samples k), locks1, tries + 1)
    | (false, _) => acquireJobGo samples locks (k + 1) (tries + 1) b

/-- `DeflateQplJobHWPool::acquireJob`: if the pool is not ready return null;
otherwise run the randomized CAS loop.  On success the external job id
`MAX_HW_JOB_NUMBER − index` is emitted through `*job_id`.  Returns
(`some (index, job_id)` or `none`, pool state, number of lock attempts). -/
def acquireJob (s : PoolState) (samples : Nat → Nat) :
    Option (Nat × Nat) × PoolState × Nat :=
  if s.ready then
    match acquireJobGo samples s.locks 0 0 MAX_HW_JOB_NUMBER with
    | (some index, locks1, tries) =>
      (some (index, MAX_HW_JOB_NUMBER - index), ⟨s.ready, locks1⟩, tries)
    | (none, locks1, tries) => (none, ⟨s.ready, locks1⟩, tries)
  else (none, s, 0)

/-- `DeflateQplJobHWPool::releaseJob`: if the pool is ready, compute
`index = MAX_HW_JOB_NUMBER − job_id` and store `false` into that lock
(via `ReleaseJobObjectGuard` / `unLockJob`); otherwise do nothing. -/
def releaseJob (job_id : Nat) (s : PoolState) : PoolState :=
  if s.ready then ⟨s.ready, unLockJob (MAX_HW_JOB_NUMBER - job_id) s.locks⟩ else s

/-- The constructor loop of `DeflateQplJobHWPool::DeflateQplJobHWPool`:
initialize slot `i` with `qpl_init_job` (outcome `initStatuses i`); on the
first failure set `job_pool_ready = false` and return, leaving the locks as
they are; after all `MAX_HW_JOB_NUMBER` slots succeed set
`job_pool_ready = true`.  `fuel` counts the remaining iterations
(`MAX_HW_JOB_NUMBER − i`). -/
def poolInitGo (initStatuses : Nat → QplStatus) :
    (Nat → Bool) → Nat → Nat → PoolState
  | locks, _, 0 => ⟨true, locks⟩
  | locks, i, fuel + 1 =>
    if initStatuses i = QplStatus.ok then
      poolInitGo initStatuses (unLockJob i locks) (i + 1) fuel
    else ⟨false, locks⟩

/-- `DeflateQplJobHWPool` construction: the static lock array is
zero-initialized (all `false`), then each slot is initialized in order. -/
def poolInit (initStatuses : Nat → QplStatus) : PoolState :=
  poolInitGo initStatuses (fun _ => false) 0 MAX_HW_JOB_NUMBER

/-- `CompressionCodecDeflateQpl::getMaxCompressedDataSize`:
`n + (n >> 12) + (n >> 14) + (n >> 25) + 13` in `uint32_t` arithmetic. -/
def getMaxCompressedDataSize (uncompressed_size : Nat) : Nat :=
  (uncompressed_size + (uncompressed_size >>> 12) + (uncompressed_size >>> 14)
    + (uncompressed_size >>> 25) + 13) % UINT32_LIMIT

/-- Modelled from the spec (for the comparison that claim C3 demands):
`ceil(n + n/4096 + n/16384 + n/33554432 + 13)` where the divisions are exact
rational arithmetic.  Writing the sum over the common denominator `2^25` and
using `ceil (x / d) = (x + d − 1) / d` on naturals gives the closed form
below. -/
def specCeilMaxCompressedDataSize (n : Nat) : Nat :=
  (n * 33554432 + n * 8192 + n * 2048 + n + 13 * 33554432 + 33554431) / 33554432

/-- State of a `HardwareCodecDeflateQpl` instance: the global pool (threaded
through explicitly, since every method touches `DeflateQplJobHWPool::instance()`)
and the ordered in-flight map `decomp_async_job_map` from external job id to
the acquired slot index (standing for the `qpl_job *`). -/
structure HWState where
  pool : PoolState
  map : List (Nat × Nat)

/-- `std::map::insert` on the id-ordered association list: place the entry at
its key position; if the key is already present the map is unchanged. -/
def mapInsert (e : Nat × Nat) : List (Nat × Nat) → List (Nat × Nat)
  | [] => [e]
  | x :: xs =>
    if e.1 < x.1 then e :: x :: xs
    else if e.1 = x.1 then x :: xs
    else x :: mapInsert e xs

/-- Result of `HardwareCodecDeflateQpl::doCompressData`: the `int32_t` return
value, the pool state, and the number of `LOG_WARNING` calls made. -/
structure HWCompressResult where
  ret : Nat
  pool : PoolState
  warnings : Nat

/-- `HardwareCodecDeflateQpl::doCompressData`: `compressed_size` starts at 0;
acquire a job (on failure log and return `RET_ERROR`); run `qpl_execute_job`
(outcome `execStatus`; on `QPL_STS_OK` set `compressed_size = total_out`,
otherwise log a warning and leave `compressed_size` at its initial 0); release
the job; return `compressed_size`. -/
def hwDoCompressData (pool : PoolState) (samples : Nat → Nat)
    (execStatus : QplStatus) (totalOut : Nat) : HWCompressResult :=
  match acquireJob pool samples with
  | (none, pool1, _) => ⟨RET_ERROR, pool1, 1⟩
  | (some ij, pool1, _) =>
    match execStatus with
    | QplStatus.ok => ⟨totalOut, releaseJob ij.2 pool1, 0⟩
    | _ => ⟨0, releaseJob ij.2 pool1, 1⟩

/-- Result of `HardwareCodecDeflateQpl::doDecompressDataAsynchronous`. -/
structure HWSubmitResult where
  ret : Nat
  st : HWState
  warnings : Nat

/-- `HardwareCodecDeflateQpl::doDecompressDataAsynchronous`: acquire a job (on
failure log and return `RET_ERROR`); `qpl_submit_job` (outcome
`submitStatus`); on `QPL_STS_OK` insert `(job_id, job_ptr)` into
`decomp_async_job_map` and return `job_id`; otherwise release the job, log a
warning and return `RET_ERROR`. -/
def hwDoDecompressDataAsynchronous (s : HWState) (samples : Nat → Nat)
    (submitStatus : QplStatus) : HWSubmitResult :=
  match acquireJob s.pool samples with
  | (none, pool1, _) => ⟨RET_ERROR, ⟨pool1, s.map⟩, 1⟩
  | (some ij, pool1, _) =>
    match submitStatus with
    | QplStatus.ok => ⟨ij.2, ⟨pool1, mapInsert (ij.2, ij.1) s.map⟩, 0⟩
    | _ => ⟨RET_ERROR, ⟨releaseJob ij.2 pool1, s.map⟩, 1⟩

/-- The polling loop of
`HardwareCodecDeflateQpl::flushAsynchronousDecompressRequests`.  The map
iterator is the index `p` into the id-ordered list `m`; `n` is the
`n_jobs_processing` counter (initialized to the map's size).  Polling
(`qpl_check_job`) is modelled by the oracle `doneAfter`: the poll of job `id`
returns `QPL_STS_BEING_PROCESSED` while `cnt id < doneAfter id` (where `cnt`
counts the polls of `id` performed so far) and a terminal status afterwards —
this encodes the precondition that every submitted job eventually leaves
`BEING_PROCESSED`.  A still-processing job advances the iterator; a finished
job is released (`releaseJob`) and erased, decrementing `n` (breaking out when
`n` reaches 0); an iterator that reaches the end wraps to the beginning (after
a `_tpause`, which is unobservable).  Returns the pool, the remaining map and
the job ids passed to `releaseJob` in call order. -/
def drainGo (doneAfter : Nat → Nat) (cnt : Nat → Nat) (pool : PoolState)
    (m : List (Nat × Nat)) (p n : Nat) (rels : List Nat) :
    PoolState × List (Nat × Nat) × List Nat :=
  if hn : n = 0 then (pool, m, rels.reverse)
  else
    match hget : m[p]? with
    | none => (pool, m, rels.reverse)
    | some e =>
      if hb : cnt e.1 < doneAfter e.1 then
        drainGo doneAfter (Function.update cnt e.1 (cnt e.1 + 1)) pool m
          (if p + 1 = m.length then 0 else p + 1) n rels
      else
        if n - 1 = 0 then
          (releaseJob e.1 pool, m.eraseIdx p, (e.1 :: rels).reverse)
        else
          drainGo doneAfter cnt (releaseJob e.1 pool) (m.eraseIdx p)
            (if p = (m.eraseIdx p).length then 0 else p) (n - 1) (e.1 :: rels)
termination_by (m.map fun x => doneAfter x.1 - cnt x.1).sum + n
decreasing_by
  · have he : e ∈ m := by
      have hp : p < m.length := (List.getElem?_eq_some.mp hget).1
      have hv : m[p] = e := (List.getElem?_eq_some.mp hget).2
      exact hv ▸ List.getElem_mem hp
    have hle : ∀ y : Nat × Nat,
        doneAfter y.1 - Function.update cnt e.1 (cnt e.1 + 1) y.1
          ≤ doneAfter y.1 - cnt y.1 := by
      intro y
      rw [Function.update_apply]
      by_cases hy : y.1 = e.1
      · simp only [hy, if_pos rfl]
        exact Nat.sub_le_sub_left (Nat.le_succ _) _
      · simp [hy]
    have key : ∀ l : List (Nat × Nat), e ∈ l →
        (l.map fun x => doneAfter x.1 - Function.update cnt e.1 (cnt e.1 + 1) x.1).sum
          < (l.map fun x => doneAfter x.1 - cnt x.1).sum := by
      intro l hl
      induction l with
      | nil => cases hl
      | cons x xs ih =>
        simp only [List.map_cons, List.sum_cons]
        rcases List.mem_cons.mp hl with he1 | he2
        · subst he1
          refine Nat.add_lt_add_of_lt_of_le ?_ (List.sum_le_sum fun y _ => hle y)
          rw [Function.update_apply, if_pos rfl]
          exact Nat.sub_lt_sub_left hb (Nat.lt_succ_self _)
        · exact Nat.add_lt_add_of_le_of_lt (hle x) (ih he2)
    exact Nat.add_lt_add_right (key m he) n
  · have key : ∀ (l : List (Nat × Nat)) (q : Nat),
        ((l.eraseIdx q).map fun x => doneAfter x.1 - cnt x.1).sum
          ≤ (l.map fun x => doneAfter x.1 - cnt x.1).sum := by
      intro l
      induction l with
      | nil => intro q; simp [List.eraseIdx]
      | cons x xs ih =>
        intro q
        cases q with
        | zero =>
          simp only [List.eraseIdx, List.map_cons, List.sum_cons]
          exact Nat.le_add_left _ _
        | succ q =>
          simp only [List.eraseIdx, List.map_cons, List.sum_cons]
          exact Nat.add_le_add_left (ih q) _
    exact Nat.add_lt_add_of_le_of_lt (key m p)
      (Nat.sub_lt (Nat.pos_of_ne_zero hn) Nat.one_pos)

/-- `HardwareCodecDeflateQpl::flushAsynchronousDecompressRequests`: run the
polling loop starting at the map's begin iterator with `n_jobs_processing`
set to the map's size.  Returns the codec state and the release calls made. -/
def flushAsynchronousDecompressRequests (doneAfter cnt : Nat → Nat)
    (s : HWState) : HWState × List Nat :=
  match drainGo doneAfter cnt s.pool s.map 0 s.map.length [] with
  | (pool1, m1, rels) => (⟨pool1, m1⟩, rels)

/-- State of a `SoftwareCodecDeflateQpl` instance: whether the lazily
allocated `sw_job` pointer is non-null.  (In the source, `sw_job` is assigned
from the freshly allocated buffer *before* `qpl_init_job` is checked, so the
pointer is non-null even after a failed initialization.) -/
structure SWState where
  sw_job : Bool

/-- `SoftwareCodecDeflateQpl::getJobCodecPtr`: if `sw_job` is already
non-null return it; otherwise allocate the buffer, set `sw_job`, and run
`qpl_init_job` (outcome `initStatus`) — a non-OK status raises
`CANNOT_COMPRESS`. -/
def getJobCodecPtr (st : SWState) (initStatus : QplStatus) :
    Except QplErrorCode Unit × SWState :=
  if st.sw_job then (Except.ok (), st)
  else
    if initStatus = QplStatus.ok then (Except.ok (), ⟨true⟩)
    else (Except.error QplErrorCode.CANNOT_COMPRESS, ⟨true⟩)

/-- `SoftwareCodecDeflateQpl::doCompressData`: obtain the job (may raise
`CANNOT_COMPRESS`), execute (outcome `execStatus`); a non-OK execution raises
`CANNOT_COMPRESS`, otherwise the job's `total_out` is returned. -/
def swDoCompressData (st : SWState) (initStatus execStatus : QplStatus)
    (totalOut : Nat) : Except QplErrorCode Nat × SWState :=
  match getJobCodecPtr st initStatus with
  | (Except.error e, st1) => (Except.error e, st1)
  | (Except.ok _, st1) =>
    if execStatus = QplStatus.ok then (Except.ok totalOut, st1)
    else (Except.error QplErrorCode.CANNOT_COMPRESS, st1)

/-- `SoftwareCodecDeflateQpl::doDecompressData`: obtain the job (may raise
`CANNOT_COMPRESS` from initialization), execute (outcome `execStatus`); a
non-OK execution raises `CANNOT_DECOMPRESS`. -/
def swDoDecompressData (st : SWState) (initStatus execStatus : QplStatus) :
    Except QplErrorCode Unit × SWState :=
  match getJobCodecPtr st initStatus with
  | (Except.error e, st1) => (Except.error e, st1)
  | (Except.ok _, st1) =>
    if execStatus = QplStatus.ok then (Except.ok (), st1)
    else (Except.error QplErrorCode.CANNOT_DECOMPRESS, st1)

/-- Modelled from the spec: the decompression-mode enumeration `CodecMode`
(`Synchronous`, `Asynchronous`, `SoftwareFallback`) lives in the base-codec
header that is not part of the provided sources. -/
inductive CodecMode where
  | Synchronous
  | Asynchronous
  | SoftwareFallback
deriving DecidableEq

/-- Result of `CompressionCodecDeflateQpl::doCompressData`: the value (or the
software codec's raised error), the pool, the software-codec state, and which
codecs were invoked. -/
structure DispatchCompressResult where
  value : Except QplErrorCode Nat
  pool : PoolState
  sw : SWState
  usedHW : Bool
  usedSW : Bool

/-- `CompressionCodecDeflateQpl::doCompressData`:
`res = RET_ERROR; if (pool ready) res = hw_codec->doCompressData(...);`
`if (res == RET_ERROR) res = sw_codec->doCompressData(...); return res;`. -/
def dispatchDoCompressData (pool : PoolState) (sw : SWState)
    (samples : Nat → Nat) (hwExecStatus : QplStatus) (hwTotalOut : Nat)
    (swInitStatus swExecStatus : QplStatus) (swTotalOut : Nat) :
    DispatchCompressResult :=
  if pool.ready then
    let r := hwDoCompressData pool samples hwExecStatus hwTotalOut
    if r.ret = RET_ERROR then
      match swDoCompressData sw swInitStatus swExecStatus swTotalOut with
      | (v, sw1) => ⟨v, r.pool, sw1, true, true⟩
    else ⟨Except.ok r.ret, r.pool, sw, true, false⟩
  else
    match swDoCompressData sw swInitStatus swExecStatus swTotalOut with
    | (v, sw1) => ⟨v, pool, sw1, false, true⟩

/-- Result of `CompressionCodecDeflateQpl::doDecompressData`: `exc` is the
propagated software-codec error (if any), `dest` the destination buffer
contents on return, plus the codec states and which codecs were invoked. -/
structure DispatchDecompressResult where
  exc : Option QplErrorCode
  dest : List Nat
  hw : HWState
  sw : SWState
  usedHW : Bool
  usedSW : Bool

/-- `CompressionCodecDeflateQpl::doDecompressData`, dispatching on
`getDecompressMode()`.  `output` is the decompressed byte string of this
source block — by the DEFLATE bit-compatibility of the two paths (spec P2)
the hardware and software decompressions of the same input produce the same
bytes, so a single oracle serves both.  `dest` is the destination buffer's
prior contents; the hardware writes it when the submitted job completes
(observed after the drain), the software codec writes it on successful
synchronous execution.  In `Asynchronous` mode a hardware-submitted job has
not necessarily completed on return, so `dest` is still the prior contents
there. -/
def dispatchDoDecompressData (mode : CodecMode) (s : HWState) (sw : SWState)
    (samples : Nat → Nat) (submitStatus : QplStatus) (doneAfter cnt : Nat → Nat)
    (swInitStatus swExecStatus : QplStatus) (output dest : List Nat) :
    DispatchDecompressResult :=
  match mode with
  | CodecMode.Synchronous =>
    if s.pool.ready then
      let r := hwDoDecompressDataAsynchronous s samples submitStatus
      if r.ret ≠ RET_ERROR then
        let f := flushAsynchronousDecompressRequests doneAfter cnt r.st
        ⟨none, output, f.1, sw, true, false⟩
      else
        match swDoDecompressData sw swInitStatus swExecStatus with
        | (Except.ok _, sw1) => ⟨none, output, r.st, sw1, true, true⟩
        | (Except.error e, sw1) => ⟨some e, dest, r.st, sw1, true, true⟩
    else
      match swDoDecompressData sw swInitStatus swExecStatus with
      | (Except.ok _, sw1) => ⟨none, output, s, sw1, false, true⟩
      | (Except.error e, sw1) => ⟨some e, dest, s, sw1, false, true⟩
  | CodecMode.Asynchronous =>
    if s.pool.ready then
      let r := hwDoDecompressDataAsynchronous s samples submitStatus
      if r.ret = RET_ERROR then
        match swDoDecompressData sw swInitStatus swExecStatus with
        | (Except.ok _, sw1) => ⟨none, output, r.st, sw1, true, true⟩
        | (Except.error e, sw1) => ⟨some e, dest, r.st, sw1, true, true⟩
      else ⟨none, dest, r.st, sw, true, false⟩
    else
      match swDoDecompressData sw swInitStatus swExecStatus with
      | (Except.ok _, sw1) => ⟨none, output, s, sw1, false, true⟩
      | (Except.error e, sw1) => ⟨some e, dest, s, sw1, false, true⟩
  | CodecMode.SoftwareFallback =>
    match swDoDecompressData sw swInitStatus swExecStatus with
    | (Except.ok _, sw1) => ⟨none, output, s, sw1, false, true⟩
    | (Except.error e, sw1) => ⟨some e, dest, s, sw1, false, true⟩

/-- Modelled from the spec (the reference side of claim C8's equivalence):
"Submit+drain yields the same observable behavior as synchronous execution" —
executing the decompression job synchronously to completion writes the
decompressed bytes into the destination buffer and leaves the in-flight map
untouched. -/
def specSyncDecompress (s : HWState) (output : List Nat) :
    List Nat × List (Nat × Nat) :=
  (output, s.map)

/-- The in-flight-map invariant (spec I3): the slot lock of every entry
`(id, slot)` of `decomp_async_job_map` is held. -/
def MapLocksHeld (s : HWState) : Prop :=
  ∀ e ∈ s.map, s.pool.locks e.2 = true

/-! ## Helper lemmas about the pool's acquire loop -/

theorem tryLockJob_free (index : Nat) (locks : Nat → Bool)
    (h : locks index = false) :
    tryLockJob index locks = (true, Function.update locks index true) := by
  simp [tryLockJob, h]

theorem tryLockJob_held (index : Nat) (locks : Nat → Bool)
    (h : locks index = true) : tryLockJob index locks = (false, locks) := by
  simp [tryLockJob, h]

theorem acquireJobGo_some (samples : Nat → Nat) (locks : Nat → Bool) :
    ∀ b k tries i locks1 tries1,
      acquireJobGo samples locks k tries b = (some i, locks1, tries1) →
      locks i = false ∧ locks1 = Function.update locks i true ∧ ∃ j, i = samples j := by
  intro b
  induction b with
  | zero =>
    intro k tries i locks1 tries1 h
    cases hl : locks (samples k) with
    | true => simp [acquireJobGo, tryLockJob, hl] at h
    | false =>
      simp [acquireJobGo, tryLockJob, hl] at h
      obtain ⟨hi, hlk, -⟩ := h
      exact ⟨hi ▸ hl, hi ▸ hlk.symm, k, hi.symm⟩
  | succ b ih =>
    intro k tries i locks1 tries1 h
    cases hl : locks (samples k) with
    | true =>
      simp only [acquireJobGo, tryLockJob, hl] at h
      exact ih (k + 1) (tries + 1) i locks1 tries1 h
    | false =>
      simp [acquireJobGo, tryLockJob, hl] at h
      obtain ⟨hi, hlk, -⟩ := h
      exact ⟨hi ▸ hl, hi ▸ hlk.symm, k, hi.symm⟩

theorem acquireJobGo_none (samples : Nat → Nat) (locks : Nat → Bool) :
    ∀ b k tries locks1 tries1,
      acquireJobGo samples locks k tries b = (none, locks1, tries1) →
      locks1 = locks := by
  intro b
  induction b with
  | zero =>
    intro k tries locks1 tries1 h
    cases hl : locks (samples k) with
    | true => simp [acquireJobGo, tryLockJob, hl] at h; exact h.1.symm
    | false => simp [acquireJobGo, tryLockJob, hl] at h
  | succ b ih =>
    intro k tries locks1 tries1 h
    cases hl : locks (samples k) with
    | true =>
      simp only [acquireJobGo, tryLockJob, hl] at h
      exact ih (k + 1) (tries + 1) locks1 tries1 h
    | false => simp [acquireJobGo, tryLockJob, hl] at h

theorem acquireJobGo_tries_le (samples : Nat → Nat) (locks : Nat → Bool) :
    ∀ b k tries,
      (acquireJobGo samples locks k tries b).2.2 ≤ tries + b + 1 := by
  intro b
  induction b with
  | zero =>
    intro k tries
    cases hl : locks (samples k) with
    | true => simp [acquireJobGo, tryLockJob, hl]
    | false => simp [acquireJobGo, tryLockJob, hl]
  | succ b ih =>
    intro k tries
    cases hl : locks (samples k) with
    | true =>
      simp only [acquireJobGo, tryLockJob, hl]
      calc (acquireJobGo samples locks (k + 1) (tries + 1) b).2.2
          ≤ tries + 1 + b + 1 := ih (k + 1) (tries + 1)
        _ = tries + (b + 1) + 1 := by omega
    | false =>
      simp [acquireJobGo, tryLockJob, hl]

theorem acquireJobGo_all_held (samples : Nat → Nat) (locks : Nat → Bool) :
    ∀ b k tries, (∀ j, j ≤ b → locks (samples (k + j)) = true) →
      acquireJobGo samples locks k tries b = (none, locks, tries + (b + 1)) := by
  intro b
  induction b with
  | zero =>
    intro k tries hall
    have h0 : locks (samples k) = true := by
      have := hall 0 (Nat.le_refl 0)
      simpa using this
    simp [acquireJobGo, tryLockJob, h0]
  | succ b ih =>
    intro k tries hall
    have h0 : locks (samples k) = true := by
      have := hall 0 (Nat.zero_le _)
      simpa using this
    simp only [acquireJobGo, tryLockJob, h0, if_pos]
    have hrec := ih (k + 1) (tries + 1) (fun j hj => by
      have := hall (j + 1) (Nat.succ_le_succ hj)
      have harith : k + 1 + j = k + (j + 1) := by omega
      rw [harith]
      exact this)
    rw [hrec]
    have : tries + 1 + (b + 1) = tries + (b + 1 + 1) := by omega
    rw [this]

theorem acquireJob_some (s : PoolState) (samples : Nat → Nat)
    (i id : Nat) (s1 : PoolState) (tries : Nat)
    (h : acquireJob s samples = (some (i, id), s1, tries)) :
    s.ready = true ∧ s.locks i = false ∧ id = MAX_HW_JOB_NUMBER - i
    ∧ s1.ready = s.ready ∧ s1.locks = Function.update s.locks i true
    ∧ ∃ j, i = samples j := by
  cases hr : s.ready with
  | false => simp [acquireJob, hr] at h
  | true =>
    simp only [acquireJob, hr, if_pos] at h
    rcases hgo : acquireJobGo samples s.locks 0 0 MAX_HW_JOB_NUMBER with ⟨o, locks1, tries1⟩
    cases o with
    | none => rw [hgo] at h; simp at h
    | some i0 =>
      rw [hgo] at h
      simp at h
      obtain ⟨⟨hi0, hid⟩, hs1, htries⟩ := h
      obtain ⟨hfree, hlocks1, j, hj⟩ :=
        acquireJobGo_some samples s.locks MAX_HW_JOB_NUMBER 0 0 i0 locks1 tries1 hgo
      subst hi0
      refine ⟨rfl, hfree, hid.symm, ?_, ?_, j, hj⟩
      · rw [← hs1]
      · rw [← hs1]; exact hlocks1

theorem acquireJob_ready_preserved (s : PoolState) (samples : Nat → Nat) :
    (acquireJob s samples).2.1.ready = s.ready := by
  cases hr : s.ready with
  | false => simp [acquireJob, hr]
  | true =>
    simp only [acquireJob, hr, if_pos]
    rcases hgo : acquireJobGo samples s.locks 0 0 MAX_HW_JOB_NUMBER with ⟨o, locks1, tries1⟩
    cases o <;> simp

theorem acquireJob_not_ready (s : PoolState) (samples : Nat → Nat)
    (h : s.ready = false) : acquireJob s samples = (none, s, 0) := by
  simp [acquireJob, h]

/-! ## Claim C3: worst-case compressed size bound -/

/-- C3, counterexample: claim C3 states that
`getMaxCompressedDataSize n` equals the ceiling of the exact rational sum
`n + n/4096 + n/16384 + n/33554432 + 13` for every 32-bit `n`; at `n = 1`
the code computes `1 + 0 + 0 + 0 + 13 = 14` (the shifts are floor
divisions) while the exact-rational ceiling is `15`. -/
theorem C3_counterexample :
    getMaxCompressedDataSize 1 = 14 ∧ specCeilMaxCompressedDataSize 1 = 15
    ∧ getMaxCompressedDataSize 1 ≠ specCeilMaxCompressedDataSize 1 := by
  refine ⟨by decide, by decide, by decide⟩

/-- C3 (amended): for every input length `n`,
`getMaxCompressedDataSize n` equals
`n + ⌊n/4096⌋ + ⌊n/16384⌋ + ⌊n/33554432⌋ + 13` computed in 32-bit unsigned
arithmetic (i.e. reduced modulo 2^32) — the divisions are floor divisions
(the code's right shifts), not exact rational arithmetic. -/
theorem C3_getMaxCompressedDataSize_eq_floor_sum (n : Nat) :
    getMaxCompressedDataSize n
      = (n + n / 4096 + n / 16384 + n / 33554432 + 13) % 4294967296 := by
  have h12 : n >>> 12 = n / 4096 := Nat.shiftRight_eq_div_pow n 12
  have h14 : n >>> 14 = n / 16384 := Nat.shiftRight_eq_div_pow n 14
  have h25 : n >>> 25 = n / 33554432 := Nat.shiftRight_eq_div_pow n 25
  simp [getMaxCompressedDataSize, UINT32_LIMIT, h12, h14, h25]

/-! ## Claim C2: number of acquire attempts before giving up -/

/-- C2, counterexample: with every slot locked except slot 7 and a random
stream that samples the locked slot 0 for the first `N = 1024` attempts and
slot 7 on the next attempt, the first `N` lock attempts all fail, yet
`acquireJob` does not return null: it performs a 1025th attempt, which
succeeds and returns slot 7 (id `1017`).  So giving up happens only after
`N + 1` failed attempts, not after `N`. -/
theorem C2_counterexample :
    (acquireJob ⟨true, fun i => decide (i ≠ 7)⟩
        (fun k => if k < 1024 then 0 else 7)).1 = some (7, 1017)
    ∧ (acquireJob ⟨true, fun i => decide (i ≠ 7)⟩
        (fun k => if k < 1024 then 0 else 7)).2.2 = 1025 := by
  exact ⟨by decide, by decide⟩

/-- C2 (amended): when the pool is ready, `acquireJob` gives up and returns
null exactly after `N + 1 = 1025` failed lock attempts: for every sequence of
lock-CAS outcomes in which the first `N + 1` attempts all fail, it returns
null having performed exactly `N + 1` failed attempts, and on every input it
performs at most `N + 1` lock attempts. -/
theorem C2_acquire_gives_up_after_N_plus_1 :
    (∀ (s : PoolState) (samples : Nat → Nat), s.ready = true →
      (∀ j, j ≤ MAX_HW_JOB_NUMBER → s.locks (samples j) = true) →
      acquireJob s samples = (none, s, MAX_HW_JOB_NUMBER + 1))
    ∧ ∀ (s : PoolState) (samples : Nat → Nat),
      (acquireJob s samples).2.2 ≤ MAX_HW_JOB_NUMBER + 1 := by
  constructor
  · intro s samples hready hall
    obtain ⟨r, l⟩ := s
    simp only at hready
    subst hready
    have hgo := acquireJobGo_all_held samples l MAX_HW_JOB_NUMBER 0 0
      (fun j hj => by simpa using hall j hj)
    simp [acquireJob, hgo]
  · intro s samples
    cases hr : s.ready with
    | false => simp [acquireJob, hr]
    | true =>
      simp only [acquireJob, hr, if_pos]
      have := acquireJobGo_tries_le samples s.locks MAX_HW_JOB_NUMBER 0 0
      rcases hgo : acquireJobGo samples s.locks 0 0 MAX_HW_JOB_NUMBER with ⟨o, locks1, tries1⟩
      rw [hgo] at this
      cases o <;> simpa using this

/-- Witness for the amended C2 at a concrete input: with all locks held and a
constant sample stream, `acquireJob` returns null after exactly 1025 failed
attempts. -/
theorem C2_witness :
    acquireJob ⟨true, fun _ => true⟩ (fun _ => 0)
      = (none, ⟨true, fun _ => true⟩, MAX_HW_JOB_NUMBER + 1)
    ∧ (acquireJob ⟨true, fun _ => true⟩ (fun _ => 0)).2.2 ≤ MAX_HW_JOB_NUMBER + 1 :=
  ⟨C2_acquire_gives_up_after_N_plus_1.1 ⟨true, fun _ => true⟩ (fun _ => 0) rfl
      (fun j _ => rfl),
    C2_acquire_gives_up_after_N_plus_1.2 ⟨true, fun _ => true⟩ (fun _ => 0)⟩

/-! ## Claim C7: external job id encoding is a reversible, non-zero encoding -/

/-- C7: whenever `acquireJob` (with in-range random samples) successfully
acquires slot `i`, the emitted external id is `MAX_HW_JOB_NUMBER − i`, lies
in `[1, MAX_HW_JOB_NUMBER]` and is never the `RET_ERROR` sentinel `0`;
`releaseJob` applied to that id computes index `MAX_HW_JOB_NUMBER − id = i`
and stores `false` into exactly the lock that was acquired, leaving every
other lock unchanged. -/
theorem C7_job_id_encoding_bijection (s : PoolState) (samples : Nat → Nat)
    (hs : ∀ k, samples k < MAX_HW_JOB_NUMBER)
    (i id : Nat) (s1 : PoolState) (tries : Nat)
    (h : acquireJob s samples = (some (i, id), s1, tries)) :
    id = MAX_HW_JOB_NUMBER - i ∧ 1 ≤ id ∧ id ≤ MAX_HW_JOB_NUMBER
    ∧ id ≠ RET_ERROR ∧ MAX_HW_JOB_NUMBER - id = i
    ∧ (releaseJob id s1).locks i = false
    ∧ ∀ j, j ≠ i → (releaseJob id s1).locks j = s1.locks j := by
  obtain ⟨hready, hfree, hid, hs1r, hs1l, j, hj⟩ :=
    acquireJob_some s samples i id s1 tries h
  have hi : i < MAX_HW_JOB_NUMBER := hj ▸ hs j
  have hid1 : 1 ≤ id := by omega
  have hidle : id ≤ MAX_HW_JOB_NUMBER := by omega
  have hinv : MAX_HW_JOB_NUMBER - id = i := by omega
  have hrel : releaseJob id s1
      = ⟨s1.ready, unLockJob (MAX_HW_JOB_NUMBER - id) s1.locks⟩ := by
    have : s1.ready = true := hs1r.trans hready
    simp [releaseJob, this]
  refine ⟨hid, hid1, hidle, by simp [RET_ERROR]; omega, hinv, ?_, ?_⟩
  · rw [hrel, hinv]
    simp [unLockJob]
  · intro j2 hj2
    rw [hrel, hinv]
    simp [unLockJob, Function.update_apply, hj2]

/-- Witness for C7 at a concrete input: a ready pool with all slots free and
the constant sample stream `5` acquires slot 5 with id `1019 = 1024 − 5`, and
releasing id `1019` clears exactly lock 5. -/
theorem C7_witness :
    1019 = MAX_HW_JOB_NUMBER - 5 ∧ 1 ≤ 1019 ∧ 1019 ≤ MAX_HW_JOB_NUMBER
    ∧ 1019 ≠ RET_ERROR ∧ MAX_HW_JOB_NUMBER - 1019 = 5
    ∧ (releaseJob 1019
        ⟨true, Function.update (fun _ => false) 5 true⟩).locks 5 = false
    ∧ ∀ j, j ≠ 5 → (releaseJob 1019
        ⟨true, Function.update (fun _ => false) 5 true⟩).locks j
        = Function.update (fun _ => false) 5 true j :=
  C7_job_id_encoding_bijection ⟨true, fun _ => false⟩ (fun _ => 5)
    (fun _ => show (5 : Nat) < MAX_HW_JOB_NUMBER by decide) 5 1019
    ⟨true, Function.update (fun _ => false) 5 true⟩ 1 rfl

/-! ## Claim C10: software codec error kinds -/

/-- C10: if the software codec's lazily-initialized job fails to initialize
(`sw_job` still null and `qpl_init_job` non-OK), both software compress and
software decompress raise `CANNOT_COMPRESS` — the decompress path also
reports `CANNOT_COMPRESS` in that case, not `CANNOT_DECOMPRESS`; and
decompression raises `CANNOT_DECOMPRESS` exactly when the job pointer was
obtained (already non-null, or initialization succeeded) and the execute
step failed. -/
theorem C10_sw_error_kinds :
    (∀ (initStatus execC execD : QplStatus) (tOut : Nat),
      initStatus ≠ QplStatus.ok →
      (swDoCompressData ⟨false⟩ initStatus execC tOut).1
          = Except.error QplErrorCode.CANNOT_COMPRESS
      ∧ (swDoDecompressData ⟨false⟩ initStatus execD).1
          = Except.error QplErrorCode.CANNOT_COMPRESS)
    ∧ ∀ (st : SWState) (initStatus execStatus : QplStatus),
      (swDoDecompressData st initStatus execStatus).1
          = Except.error QplErrorCode.CANNOT_DECOMPRESS
        ↔ ((st.sw_job = true ∨ initStatus = QplStatus.ok)
            ∧ execStatus ≠ QplStatus.ok) := by
  constructor
  · intro initStatus execC execD tOut hinit
    constructor
    · simp [swDoCompressData, getJobCodecPtr, hinit]
    · simp [swDoDecompressData, getJobCodecPtr, hinit]
  · intro st initStatus execStatus
    cases hjob : st.sw_job with
    | true =>
      by_cases hexec : execStatus = QplStatus.ok
      · simp [swDoDecompressData, getJobCodecPtr, hjob, hexec]
      · simp [swDoDecompressData, getJobCodecPtr, hjob, hexec]
    | false =>
      by_cases hinit : initStatus = QplStatus.ok
      · by_cases hexec : execStatus = QplStatus.ok
        · simp [swDoDecompressData, getJobCodecPtr, hjob, hinit, hexec]
        · simp [swDoDecompressData, getJobCodecPtr, hjob, hinit, hexec]
      · simp [swDoDecompressData, getJobCodecPtr, hjob, hinit]

/-- Witness for C10 at concrete inputs: a failed lazy initialization
(status `err 3`) makes both paths raise `CANNOT_COMPRESS`, and an execute
failure (`err 2`) on an already-initialized job raises `CANNOT_DECOMPRESS`. -/
theorem C10_witness :
    ((swDoCompressData ⟨false⟩ (QplStatus.err 3) QplStatus.ok 5).1
        = Except.error QplErrorCode.CANNOT_COMPRESS
      ∧ (swDoDecompressData ⟨false⟩ (QplStatus.err 3) QplStatus.ok).1
        = Except.error QplErrorCode.CANNOT_COMPRESS)
    ∧ ((swDoDecompressData ⟨true⟩ QplStatus.ok (QplStatus.err 2)).1
          = Except.error QplErrorCode.CANNOT_DECOMPRESS
        ↔ ((SWState.mk true).sw_job = true ∨ QplStatus.ok = QplStatus.ok)
            ∧ QplStatus.err 2 ≠ QplStatus.ok) :=
  ⟨C10_sw_error_kinds.1 (QplStatus.err 3) QplStatus.ok QplStatus.ok 5 (by decide),
    C10_sw_error_kinds.2 ⟨true⟩ QplStatus.ok (QplStatus.err 2)⟩

/-! ## Helper lemmas about `mapInsert` -/

theorem mapInsert_perm (e : Nat × Nat) (m : List (Nat × Nat))
    (h : ∀ x ∈ m, x.1 ≠ e.1) : (mapInsert e m).Perm (e :: m) := by
  induction m with
  | nil => simp [mapInsert]
  | cons x xs ih =>
    by_cases h1 : e.1 < x.1
    · simp [mapInsert, h1]
    · have hne : ¬ e.1 = x.1 := fun hc => h x (List.mem_cons_self x xs) hc.symm
      simp only [mapInsert, if_neg h1, if_neg hne]
      have ihx := ih fun y hy => h y (List.mem_cons_of_mem x hy)
      exact (ihx.cons x).trans (List.Perm.swap e x xs)

theorem mem_mapInsert (e x : Nat × Nat) (m : List (Nat × Nat))
    (h : x ∈ mapInsert e m) : x = e ∨ x ∈ m := by
  induction m with
  | nil => simpa [mapInsert] using h
  | cons y ys ih =>
    by_cases h1 : e.1 < y.1
    · simp only [mapInsert, if_pos h1] at h
      rcases List.mem_cons.mp h with h | h
      · exact Or.inl h
      · exact Or.inr h
    · by_cases h2 : e.1 = y.1
      · simp only [mapInsert, if_neg h1, if_pos h2] at h
        exact Or.inr h
      · simp only [mapInsert, if_neg h1, if_neg h2] at h
        rcases List.mem_cons.mp h with h | h
        · exact Or.inr (h ▸ List.mem_cons_self y ys)
        · rcases ih h with h3 | h3
          · exact Or.inl h3
          · exact Or.inr (List.mem_cons_of_mem y h3)

/-! ## Claim C1: hardware compress failure falls back to software -/

/-- C1: when the hardware compress path acquires a job but
`qpl_execute_job` returns a non-OK status, `doCompressData` logs exactly one
warning and returns the `RET_ERROR` sentinel (its `compressed_size` stays at
the sentinel value 0), and the dispatch codec's `doCompressData` then
produces its result — value and software-codec state — via the software
codec on the same input. -/
theorem C1_hw_compress_failure_falls_back (pool : PoolState) (sw : SWState)
    (samples : Nat → Nat) (hwExecStatus : QplStatus) (hwTotalOut : Nat)
    (swInitStatus swExecStatus : QplStatus) (swTotalOut : Nat)
    (ij : Nat × Nat) (pool1 : PoolState) (tr : Nat)
    (hacq : acquireJob pool samples = (some ij, pool1, tr))
    (hexec : hwExecStatus ≠ QplStatus.ok) :
    (hwDoCompressData pool samples hwExecStatus hwTotalOut).ret = RET_ERROR
    ∧ (hwDoCompressData pool samples hwExecStatus hwTotalOut).warnings = 1
    ∧ (dispatchDoCompressData pool sw samples hwExecStatus hwTotalOut
        swInitStatus swExecStatus swTotalOut).usedSW = true
    ∧ (dispatchDoCompressData pool sw samples hwExecStatus hwTotalOut
        swInitStatus swExecStatus swTotalOut).value
        = (swDoCompressData sw swInitStatus swExecStatus swTotalOut).1
    ∧ (dispatchDoCompressData pool sw samples hwExecStatus hwTotalOut
        swInitStatus swExecStatus swTotalOut).sw
        = (swDoCompressData sw swInitStatus swExecStatus swTotalOut).2 := by
  have hready : pool.ready = true :=
    (acquireJob_some pool samples ij.1 ij.2 pool1 tr (by rw [hacq])).1
  have hhw : (hwDoCompressData pool samples hwExecStatus hwTotalOut).ret = RET_ERROR
      ∧ (hwDoCompressData pool samples hwExecStatus hwTotalOut).warnings = 1 := by
    cases hwExecStatus with
    | ok => exact absurd rfl hexec
    | beingProcessed => simp [hwDoCompressData, hacq, RET_ERROR]
    | err c => simp [hwDoCompressData, hacq, RET_ERROR]
  refine ⟨hhw.1, hhw.2, ?_⟩
  rcases hsw : swDoCompressData sw swInitStatus swExecStatus swTotalOut with ⟨v, sw1⟩
  simp [dispatchDoCompressData, hready, hhw.1, hsw]

/-- Witness for C1 at a concrete input: an all-free ready pool, execute
failure `err 7`, an already-initialized software codec that succeeds with
`total_out = 42`. -/
theorem C1_witness :
    (hwDoCompressData ⟨true, fun _ => false⟩ (fun _ => 0) (QplStatus.err 7) 9).ret
        = RET_ERROR
    ∧ (hwDoCompressData ⟨true, fun _ => false⟩ (fun _ => 0) (QplStatus.err 7) 9).warnings = 1
    ∧ (dispatchDoCompressData ⟨true, fun _ => false⟩ ⟨true⟩ (fun _ => 0)
        (QplStatus.err 7) 9 QplStatus.ok QplStatus.ok 42).usedSW = true
    ∧ (dispatchDoCompressData ⟨true, fun _ => false⟩ ⟨true⟩ (fun _ => 0)
        (QplStatus.err 7) 9 QplStatus.ok QplStatus.ok 42).value
        = (swDoCompressData ⟨true⟩ QplStatus.ok QplStatus.ok 42).1
    ∧ (dispatchDoCompressData ⟨true, fun _ => false⟩ ⟨true⟩ (fun _ => 0)
        (QplStatus.err 7) 9 QplStatus.ok QplStatus.ok 42).sw
        = (swDoCompressData ⟨true⟩ QplStatus.ok QplStatus.ok 42).2 :=
  C1_hw_compress_failure_falls_back ⟨true, fun _ => false⟩ ⟨true⟩ (fun _ => 0)
    (QplStatus.err 7) 9 QplStatus.ok QplStatus.ok 42 (0, 1024)
    ⟨true, Function.update (fun _ => false) 0 true⟩ 1 rfl (by decide)

/-! ## Claim C5: submit_decompress is atomic on error -/

/-- C5: for every call to `doDecompressDataAsynchronous` that acquires a
slot, if `qpl_submit_job` returns a non-OK status the slot is released (the
pool becomes `releaseJob id pool1`, clearing the acquired lock) and the call
returns `RET_ERROR` with the in-flight map exactly as it was before; if the
submit returns OK the call returns the id and the map becomes
`mapInsert (id, slot) map` — gaining exactly the one entry `(id, slot)`
whenever `id` was not already a key (which invariant I3 guarantees). -/
theorem C5_submit_atomic (s : HWState) (samples : Nat → Nat)
    (submitStatus : QplStatus)
    (hs : ∀ k, samples k < MAX_HW_JOB_NUMBER)
    (ij : Nat × Nat) (pool1 : PoolState) (tr : Nat)
    (hacq : acquireJob s.pool samples = (some ij, pool1, tr)) :
    (submitStatus ≠ QplStatus.ok →
      (hwDoDecompressDataAsynchronous s samples submitStatus).ret = RET_ERROR
      ∧ (hwDoDecompressDataAsynchronous s samples submitStatus).st.map = s.map
      ∧ (hwDoDecompressDataAsynchronous s samples submitStatus).st.pool
          = releaseJob ij.2 pool1
      ∧ (hwDoDecompressDataAsynchronous s samples submitStatus).st.pool.locks ij.1
          = false)
    ∧ (submitStatus = QplStatus.ok →
      (hwDoDecompressDataAsynchronous s samples submitStatus).ret = ij.2
      ∧ (hwDoDecompressDataAsynchronous s samples submitStatus).st.map
          = mapInsert (ij.2, ij.1) s.map
      ∧ ((∀ e ∈ s.map, e.1 ≠ ij.2) →
        (hwDoDecompressDataAsynchronous s samples submitStatus).st.map.Perm
          ((ij.2, ij.1) :: s.map))) := by
  obtain ⟨hready, hfree, hid, hp1r, hp1l, j, hj⟩ :=
    acquireJob_some s.pool samples ij.1 ij.2 pool1 tr (by rw [hacq])
  have hi : ij.1 < MAX_HW_JOB_NUMBER := hj ▸ hs j
  constructor
  · intro hsub
    have hrel : releaseJob ij.2 pool1
        = ⟨pool1.ready, unLockJob (MAX_HW_JOB_NUMBER - ij.2) pool1.locks⟩ := by
      have : pool1.ready = true := hp1r.trans hready
      simp [releaseJob, this]
    have hlock : (releaseJob ij.2 pool1).locks ij.1 = false := by
      rw [hrel]
      have hidx : MAX_HW_JOB_NUMBER - ij.2 = ij.1 := by omega
      rw [hidx]
      simp [unLockJob]
    cases submitStatus with
    | ok => exact absurd rfl hsub
    | beingProcessed =>
      refine ⟨?_, ?_, ?_, ?_⟩ <;>
        simp [hwDoDecompressDataAsynchronous, hacq, RET_ERROR, hlock]
    | err c =>
      refine ⟨?_, ?_, ?_, ?_⟩ <;>
        simp [hwDoDecompressDataAsynchronous, hacq, RET_ERROR, hlock]
  · intro hsub
    subst hsub
    refine ⟨by simp [hwDoDecompressDataAsynchronous, hacq],
      by simp [hwDoDecompressDataAsynchronous, hacq], ?_⟩
    intro hkeys
    have hperm := mapInsert_perm (ij.2, ij.1) s.map (fun x hx => hkeys x hx)
    simpa [hwDoDecompressDataAsynchronous, hacq] using hperm

/-- Witness for C5 at a concrete input: an all-free ready pool with sample
stream `3`, a failing submit (`err 9`) releases slot 3 and leaves the map
`[(1000, 24)]` unchanged; a successful submit on the same state returns id
`1021` and the map gains exactly `(1021, 3)`. -/
theorem C5_witness :
    ((hwDoDecompressDataAsynchronous ⟨⟨true, fun _ => false⟩, [(1000, 24)]⟩
        (fun _ => 3) (QplStatus.err 9)).ret = RET_ERROR
      ∧ (hwDoDecompressDataAsynchronous ⟨⟨true, fun _ => false⟩, [(1000, 24)]⟩
        (fun _ => 3) (QplStatus.err 9)).st.map = [(1000, 24)]
      ∧ (hwDoDecompressDataAsynchronous ⟨⟨true, fun _ => false⟩, [(1000, 24)]⟩
        (fun _ => 3) (QplStatus.err 9)).st.pool
          = releaseJob 1021 ⟨true, Function.update (fun _ => false) 3 true⟩
      ∧ (hwDoDecompressDataAsynchronous ⟨⟨true, fun _ => false⟩, [(1000, 24)]⟩
        (fun _ => 3) (QplStatus.err 9)).st.pool.locks 3 = false)
    ∧ ((hwDoDecompressDataAsynchronous ⟨⟨true, fun _ => false⟩, [(1000, 24)]⟩
        (fun _ => 3) QplStatus.ok).ret = 1021
      ∧ (hwDoDecompressDataAsynchronous ⟨⟨true, fun _ => false⟩, [(1000, 24)]⟩
        (fun _ => 3) QplStatus.ok).st.map = mapInsert (1021, 3) [(1000, 24)]
      ∧ ((∀ e ∈ [((1000 : Nat), (24 : Nat))], e.1 ≠ 1021) →
        (hwDoDecompressDataAsynchronous ⟨⟨true, fun _ => false⟩, [(1000, 24)]⟩
          (fun _ => 3) QplStatus.ok).st.map.Perm ((1021, 3) :: [(1000, 24)]))) :=
  ⟨(C5_submit_atomic ⟨⟨true, fun _ => false⟩, [(1000, 24)]⟩ (fun _ => 3)
      (QplStatus.err 9)
      (fun _ => show (3 : Nat) < MAX_HW_JOB_NUMBER by decide) (3, 1021)
      ⟨true, Function.update (fun _ => false) 3 true⟩ 1 rfl).1 (by decide),
    (C5_submit_atomic ⟨⟨true, fun _ => false⟩, [(1000, 24)]⟩ (fun _ => 3)
      QplStatus.ok
      (fun _ => show (3 : Nat) < MAX_HW_JOB_NUMBER by decide) (3, 1021)
      ⟨true, Function.update (fun _ => false) 3 true⟩ 1 rfl).2 rfl⟩

/-! ## The drain loop: unfolding equations and its main invariant -/

theorem drainGo_zero (doneAfter cnt : Nat → Nat) (pool : PoolState)
    (m : List (Nat × Nat)) (p : Nat) (rels : List Nat) :
    drainGo doneAfter cnt pool m p 0 rels = (pool, m, rels.reverse) := by
  rw [drainGo]
  simp

theorem drainGo_getNone (doneAfter cnt : Nat → Nat) (pool : PoolState)
    (m : List (Nat × Nat)) (p n : Nat) (rels : List Nat)
    (hn : n ≠ 0) (hget : m[p]? = none) :
    drainGo doneAfter cnt pool m p n rels = (pool, m, rels.reverse) := by
  rw [drainGo, dif_neg hn]
  split
  · rfl
  · rename_i e heq
    rw [hget] at heq
    simp at heq

theorem drainGo_processing (doneAfter cnt : Nat → Nat) (pool : PoolState)
    (m : List (Nat × Nat)) (p n : Nat) (rels : List Nat) (e : Nat × Nat)
    (hn : n ≠ 0) (hget : m[p]? = some e) (hb : cnt e.1 < doneAfter e.1) :
    drainGo doneAfter cnt pool m p n rels
      = drainGo doneAfter (Function.update cnt e.1 (cnt e.1 + 1)) pool m
          (if p + 1 = m.length then 0 else p + 1) n rels := by
  rw [drainGo, dif_neg hn]
  split
  · rename_i heq
    rw [hget] at heq
    simp at heq
  · rename_i e2 heq
    rw [hget] at heq
    injection heq with h
    subst h
    rw [dif_pos hb]

theorem drainGo_finish_last (doneAfter cnt : Nat → Nat) (pool : PoolState)
    (m : List (Nat × Nat)) (p n : Nat) (rels : List Nat) (e : Nat × Nat)
    (hn : n ≠ 0) (hget : m[p]? = some e) (hb : ¬ cnt e.1 < doneAfter e.1)
    (hlast : n - 1 = 0) :
    drainGo doneAfter cnt pool m p n rels
      = (releaseJob e.1 pool, m.eraseIdx p, (e.1 :: rels).reverse) := by
  rw [drainGo, dif_neg hn]
  split
  · rename_i heq
    rw [hget] at heq
    simp at heq
  · rename_i e2 heq
    rw [hget] at heq
    injection heq with h
    subst h
    rw [dif_neg hb, if_pos hlast]

theorem drainGo_finish_rec (doneAfter cnt : Nat → Nat) (pool : PoolState)
    (m : List (Nat × Nat)) (p n : Nat) (rels : List Nat) (e : Nat × Nat)
    (hn : n ≠ 0) (hget : m[p]? = some e) (hb : ¬ cnt e.1 < doneAfter e.1)
    (hmore : n - 1 ≠ 0) :
    drainGo doneAfter cnt pool m p n rels
      = drainGo doneAfter cnt (releaseJob e.1 pool) (m.eraseIdx p)
          (if p = (m.eraseIdx p).length then 0 else p) (n - 1) (e.1 :: rels) := by
  rw [drainGo, dif_neg hn]
  split
  · rename_i heq
    rw [hget] at heq
    simp at heq
  · rename_i e2 heq
    rw [hget] at heq
    injection heq with h
    subst h
    rw [dif_neg hb, if_neg hmore]

theorem perm_cons_eraseIdx {α : Type} (l : List α) (p : Nat) (a : α)
    (h : l[p]? = some a) : l.Perm (a :: l.eraseIdx p) := by
  induction l generalizing p with
  | nil => simp at h
  | cons x xs ih =>
    cases p with
    | zero =>
      simp only [List.getElem?_cons_zero, Option.some.injEq] at h
      subst h
      simp [List.eraseIdx]
    | succ p =>
      simp only [List.getElem?_cons_succ] at h
      have hperm := ih p h
      simp only [List.eraseIdx]
      exact (hperm.cons x).trans (List.Perm.swap a x _)

theorem drainGo_spec (doneAfter : Nat → Nat) (cnt : Nat → Nat) (pool : PoolState)
    (m : List (Nat × Nat)) (p n : Nat) (rels : List Nat)
    (hn : n = m.length) (hp : p < m.length ∨ n = 0) :
    (drainGo doneAfter cnt pool m p n rels).2.1 = []
    ∧ (drainGo doneAfter cnt pool m p n rels).2.2.Perm
        (rels.reverse ++ m.map Prod.fst) := by
  revert hn hp
  induction cnt, pool, m, p, n, rels using drainGo.induct doneAfter with
  | case1 cnt pool m p rels =>
    intro hn hp
    have hm : m = [] := List.length_eq_zero.mp hn.symm
    subst hm
    rw [drainGo_zero]
    simp
  | case2 cnt pool m p n rels hn0 hget =>
    intro hn hp
    rcases hp with hp | hp
    · have hsome := List.getElem?_eq_getElem hp
      rw [hget] at hsome
      simp at hsome
    · exact absurd hp hn0
  | case3 cnt pool m p n rels hn0 e hget hb ih =>
    intro hn hp
    rw [drainGo_processing doneAfter cnt pool m p n rels e hn0 hget hb]
    have hlen0 : 0 < m.length := by omega
    have hple : p < m.length := by
      rcases hp with hp | hp
      · exact hp
      · exact absurd hp hn0
    have hp2 : (if p + 1 = m.length then 0 else p + 1) < m.length := by
      by_cases hc : p + 1 = m.length
      · simpa [hc] using hlen0
      · simp only [if_neg hc]
        omega
    exact ih hn (Or.inl hp2)
  | case4 cnt pool m p n rels hn0 e hget hb hlast =>
    intro hn hp
    rw [drainGo_finish_last doneAfter cnt pool m p n rels e hn0 hget hb hlast]
    have hple : p < m.length := by
      rcases hp with hp | hp
      · exact hp
      · exact absurd hp hn0
    have hlen : m.length = 1 := by omega
    have hp0 : p = 0 := by omega
    subst hp0
    rcases m with _ | ⟨x, xs⟩
    · simp at hlen
    · have hxs : xs = [] := by
        simp only [List.length_cons] at hlen
        exact List.length_eq_zero.mp (by omega)
      subst hxs
      have hx : x = e := by
        simp only [List.getElem?_cons_zero, Option.some.injEq] at hget
        exact hget
      subst hx
      constructor
      · simp [List.eraseIdx]
      · simp
  | case5 cnt pool m p n rels hn0 e hget hb hmore ih =>
    intro hn hp
    rw [drainGo_finish_rec doneAfter cnt pool m p n rels e hn0 hget hb hmore]
    have hple : p < m.length := by
      rcases hp with hp | hp
      · exact hp
      · exact absurd hp hn0
    have hlen1 : (m.eraseIdx p).length = m.length - 1 := by
      rw [List.length_eraseIdx, if_pos hple]
    have hn1 : n - 1 = (m.eraseIdx p).length := by omega
    have hlpos : 0 < (m.eraseIdx p).length := by omega
    have hp2 : (if p = (m.eraseIdx p).length then 0 else p)
        < (m.eraseIdx p).length := by
      by_cases hc : p = (m.eraseIdx p).length
      · rw [if_pos hc]
        exact hlpos
      · rw [if_neg hc]
        omega
    have hres := ih hn1 (Or.inl hp2)
    refine ⟨hres.1, ?_⟩
    refine hres.2.trans ?_
    rw [List.reverse_cons, List.append_assoc]
    refine List.Perm.append_left _ ?_
    have hperm : m.Perm (e :: m.eraseIdx p) := perm_cons_eraseIdx m p e hget
    simpa using (hperm.map Prod.fst).symm

/-! ## Claim C4: drain terminates, empties the map, releases exactly its jobs -/

/-- C4: `flushAsynchronousDecompressRequests` terminates for every in-flight
map (it is a total function of the model; the oracle `doneAfter` encodes the
precondition that every submitted job eventually polls non-`BEING_PROCESSED`);
when it returns, the in-flight map is empty, and the sequence of `releaseJob`
calls it performed is a permutation of the job ids that were in the map —
each id in the map is released exactly once and no id outside the map is
ever released. -/
theorem C4_drain_empties_and_releases_exactly (doneAfter cnt : Nat → Nat)
    (s : HWState) :
    (flushAsynchronousDecompressRequests doneAfter cnt s).1.map = []
    ∧ (flushAsynchronousDecompressRequests doneAfter cnt s).2.Perm
        (s.map.map Prod.fst) := by
  have hp : 0 < s.map.length ∨ s.map.length = 0 := by omega
  have hspec := drainGo_spec doneAfter cnt s.pool s.map 0 s.map.length [] rfl hp
  rcases hdr : drainGo doneAfter cnt s.pool s.map 0 s.map.length []
    with ⟨pool1, m1, rels⟩
  rw [hdr] at hspec
  simp only [flushAsynchronousDecompressRequests, hdr]
  simpa using hspec

/-! ## Preservation helper lemmas -/

theorem releaseJob_ready (job_id : Nat) (s : PoolState) :
    (releaseJob job_id s).ready = s.ready := by
  cases hr : s.ready <;> simp [releaseJob, hr]

theorem acquireJob_none_state (s : PoolState) (samples : Nat → Nat)
    (pool1 : PoolState) (tr : Nat)
    (h : acquireJob s samples = (none, pool1, tr)) : pool1 = s := by
  obtain ⟨r, l⟩ := s
  cases r with
  | false => simp [acquireJob] at h; exact h.1.symm
  | true =>
    simp only [acquireJob, if_pos] at h
    rcases hgo : acquireJobGo samples l 0 0 MAX_HW_JOB_NUMBER with ⟨o, locks1, tries1⟩
    cases o with
    | some i => rw [hgo] at h; simp at h
    | none =>
      rw [hgo] at h
      simp only [Prod.mk.injEq] at h
      have hl : locks1 = l := acquireJobGo_none samples l _ _ _ _ _ hgo
      rw [← h.2.1, hl]

theorem hwDoCompressData_ready (pool : PoolState) (samples : Nat → Nat)
    (exec : QplStatus) (t : Nat) :
    (hwDoCompressData pool samples exec t).pool.ready = pool.ready := by
  have hac := acquireJob_ready_preserved pool samples
  rcases hacq : acquireJob pool samples with ⟨o, pool1, tr⟩
  rw [hacq] at hac
  cases o with
  | none => simpa [hwDoCompressData, hacq] using hac
  | some ij =>
    cases exec <;>
      simpa [hwDoCompressData, hacq, releaseJob_ready] using hac

theorem hwSubmit_ready (s : HWState) (samples : Nat → Nat) (sub : QplStatus) :
    (hwDoDecompressDataAsynchronous s samples sub).st.pool.ready
      = s.pool.ready := by
  have hac := acquireJob_ready_preserved s.pool samples
  rcases hacq : acquireJob s.pool samples with ⟨o, pool1, tr⟩
  rw [hacq] at hac
  cases o with
  | none => simpa [hwDoDecompressDataAsynchronous, hacq] using hac
  | some ij =>
    cases sub <;>
      simpa [hwDoDecompressDataAsynchronous, hacq, releaseJob_ready] using hac

theorem drainGo_ready (doneAfter : Nat → Nat) (cnt : Nat → Nat)
    (pool : PoolState) (m : List (Nat × Nat)) (p n : Nat) (rels : List Nat) :
    (drainGo doneAfter cnt pool m p n rels).1.ready = pool.ready := by
  induction cnt, pool, m, p, n, rels using drainGo.induct doneAfter with
  | case1 cnt pool m p rels => rw [drainGo_zero]
  | case2 cnt pool m p n rels hn0 hget =>
    rw [drainGo_getNone doneAfter cnt pool m p n rels hn0 hget]
  | case3 cnt pool m p n rels hn0 e hget hb ih =>
    rw [drainGo_processing doneAfter cnt pool m p n rels e hn0 hget hb]
    exact ih
  | case4 cnt pool m p n rels hn0 e hget hb hlast =>
    rw [drainGo_finish_last doneAfter cnt pool m p n rels e hn0 hget hb hlast]
    exact releaseJob_ready e.1 pool
  | case5 cnt pool m p n rels hn0 e hget hb hmore ih =>
    rw [drainGo_finish_rec doneAfter cnt pool m p n rels e hn0 hget hb hmore]
    exact ih.trans (releaseJob_ready e.1 pool)

theorem flush_ready (doneAfter cnt : Nat → Nat) (s : HWState) :
    (flushAsynchronousDecompressRequests doneAfter cnt s).1.pool.ready
      = s.pool.ready := by
  have h := drainGo_ready doneAfter cnt s.pool s.map 0 s.map.length []
  rcases hdr : drainGo doneAfter cnt s.pool s.map 0 s.map.length []
    with ⟨pool1, m1, rels⟩
  rw [hdr] at h
  simpa [flushAsynchronousDecompressRequests, hdr] using h

theorem flush_map_nil (doneAfter cnt : Nat → Nat) (s : HWState) :
    (flushAsynchronousDecompressRequests doneAfter cnt s).1.map = [] := by
  have hp : 0 < s.map.length ∨ s.map.length = 0 := by omega
  have hspec := drainGo_spec doneAfter cnt s.pool s.map 0 s.map.length [] rfl hp
  rcases hdr : drainGo doneAfter cnt s.pool s.map 0 s.map.length []
    with ⟨pool1, m1, rels⟩
  rw [hdr] at hspec
  simpa [flushAsynchronousDecompressRequests, hdr] using hspec.1

theorem swDecompress_ok_val (sw : SWState) :
    (swDoDecompressData sw QplStatus.ok QplStatus.ok).1 = Except.ok () := by
  cases hsj : sw.sw_job <;> simp [swDoDecompressData, getJobCodecPtr, hsj]

/-- C8: in `Synchronous` mode (submit asynchronously, then immediately
drain; software fallback when the submit path reports `RET_ERROR`),
decompression produces the same destination-buffer contents and the same
final in-flight map as executing the decompression job synchronously to
completion (`specSyncDecompress`), whenever the in-flight map is empty at
the start of the call, the random samples are in range, and the software
fallback itself succeeds (a software failure would surface as an exception
and is outside the equivalence). -/
theorem C8_sync_mode_refines_sync_execution (s : HWState) (sw : SWState)
    (samples : Nat → Nat) (submitStatus : QplStatus) (doneAfter cnt : Nat → Nat)
    (swInit swExec : QplStatus) (output dest : List Nat)
    (hs : ∀ k, samples k < MAX_HW_JOB_NUMBER)
    (hmap : s.map = [])
    (hswInit : swInit = QplStatus.ok) (hswExec : swExec = QplStatus.ok) :
    (dispatchDoDecompressData CodecMode.Synchronous s sw samples submitStatus
        doneAfter cnt swInit swExec output dest).exc = none
    ∧ (dispatchDoDecompressData CodecMode.Synchronous s sw samples submitStatus
        doneAfter cnt swInit swExec output dest).dest
        = (specSyncDecompress s output).1
    ∧ (dispatchDoDecompressData CodecMode.Synchronous s sw samples submitStatus
        doneAfter cnt swInit swExec output dest).hw.map
        = (specSyncDecompress s output).2 := by
  subst hswInit hswExec
  have hspec2 : (specSyncDecompress s output).2 = [] := hmap
  rcases hswr : swDoDecompressData sw QplStatus.ok QplStatus.ok with ⟨v, sw1⟩
  have hv : v = Except.ok () := by
    have := swDecompress_ok_val sw
    rw [hswr] at this
    exact this
  subst hv
  cases hready : s.pool.ready with
  | false =>
    refine ⟨?_, ?_, ?_⟩ <;>
      simp [dispatchDoDecompressData, hready, hswr, specSyncDecompress]
  | true =>
    rcases hacq : acquireJob s.pool samples with ⟨o, pool1, tr⟩
    cases o with
    | none =>
      refine ⟨?_, ?_, ?_⟩ <;>
        simp [dispatchDoDecompressData, hready, hwDoDecompressDataAsynchronous,
          hacq, hswr, RET_ERROR, specSyncDecompress, hmap]
    | some ij =>
      obtain ⟨hready2, hfree, hid, hp1r, hp1l, k, hk⟩ :=
        acquireJob_some s.pool samples ij.1 ij.2 pool1 tr (by rw [hacq])
      have hi : ij.1 < MAX_HW_JOB_NUMBER := hk ▸ hs k
      have hid0 : ij.2 ≠ RET_ERROR := by
        simp only [RET_ERROR]
        omega
      cases submitStatus with
      | ok =>
        have hflush := flush_map_nil doneAfter cnt
          ⟨pool1, mapInsert (ij.2, ij.1) []⟩
        refine ⟨?_, ?_, ?_⟩ <;>
          simp [dispatchDoDecompressData, hready, hwDoDecompressDataAsynchronous,
            hacq, hid0, specSyncDecompress, hmap, hflush]
      | beingProcessed =>
        refine ⟨?_, ?_, ?_⟩ <;>
          simp [dispatchDoDecompressData, hready, hwDoDecompressDataAsynchronous,
            hacq, hswr, RET_ERROR, specSyncDecompress, hmap]
      | err c =>
        refine ⟨?_, ?_, ?_⟩ <;>
          simp [dispatchDoDecompressData, hready, hwDoDecompressDataAsynchronous,
            hacq, hswr, RET_ERROR, specSyncDecompress, hmap]

/-- Witness for C8 at a concrete input: empty map, ready all-free pool,
sample stream `3`, successful submit, a job that completes after two polls,
output bytes `[1, 2]` over prior destination contents `[9]`. -/
theorem C8_witness :
    (dispatchDoDecompressData CodecMode.Synchronous ⟨⟨true, fun _ => false⟩, []⟩
        ⟨true⟩ (fun _ => 3) QplStatus.ok (fun _ => 2) (fun _ => 0)
        QplStatus.ok QplStatus.ok [1, 2] [9]).exc = none
    ∧ (dispatchDoDecompressData CodecMode.Synchronous ⟨⟨true, fun _ => false⟩, []⟩
        ⟨true⟩ (fun _ => 3) QplStatus.ok (fun _ => 2) (fun _ => 0)
        QplStatus.ok QplStatus.ok [1, 2] [9]).dest
        = (specSyncDecompress ⟨⟨true, fun _ => false⟩, []⟩ [1, 2]).1
    ∧ (dispatchDoDecompressData CodecMode.Synchronous ⟨⟨true, fun _ => false⟩, []⟩
        ⟨true⟩ (fun _ => 3) QplStatus.ok (fun _ => 2) (fun _ => 0)
        QplStatus.ok QplStatus.ok [1, 2] [9]).hw.map
        = (specSyncDecompress ⟨⟨true, fun _ => false⟩, []⟩ [1, 2]).2 :=
  C8_sync_mode_refines_sync_execution ⟨⟨true, fun _ => false⟩, []⟩ ⟨true⟩
    (fun _ => 3) QplStatus.ok (fun _ => 2) (fun _ => 0) QplStatus.ok
    QplStatus.ok [1, 2] [9]
    (fun _ => show (3 : Nat) < MAX_HW_JOB_NUMBER by decide) rfl rfl rfl

/-! ## Claim C6: pool-init failure forces the software path permanently -/

theorem poolInitGo_fail (f : Nat → QplStatus) :
    ∀ (fuel : Nat) (locks : Nat → Bool) (start i : Nat), start ≤ i →
      i < start + fuel → f i ≠ QplStatus.ok →
      (poolInitGo f locks start fuel).ready = false := by
  intro fuel
  induction fuel with
  | zero =>
    intro locks start i h1 h2 h3
    omega
  | succ fuel ih =>
    intro locks start i h1 h2 h3
    by_cases hs : f start = QplStatus.ok
    · have hne : i ≠ start := fun hc => h3 (hc ▸ hs)
      simp only [poolInitGo, if_pos hs]
      exact ih (unLockJob start locks) (start + 1) i (by omega) (by omega) h3
    · simp [poolInitGo, hs]

theorem dispatchCompress_ready (pool : PoolState) (sw : SWState)
    (samples : Nat → Nat) (he si se : QplStatus) (ht st : Nat) :
    (dispatchDoCompressData pool sw samples he ht si se st).pool.ready
      = pool.ready := by
  cases hready : pool.ready with
  | false =>
    rcases hsw : swDoCompressData sw si se st with ⟨v, sw1⟩
    simp [dispatchDoCompressData, hready, hsw]
  | true =>
    have hr := hwDoCompressData_ready pool samples he ht
    by_cases hcr : (hwDoCompressData pool samples he ht).ret = RET_ERROR
    · rcases hsw : swDoCompressData sw si se st with ⟨v, sw1⟩
      simp [dispatchDoCompressData, hready, hcr, hsw, hr]
    · simp [dispatchDoCompressData, hready, hcr, hr]

theorem dispatchDecompress_ready (mode : CodecMode) (s : HWState) (sw : SWState)
    (samples : Nat → Nat) (sub : QplStatus) (da cnt : Nat → Nat)
    (si se : QplStatus) (out dest : List Nat) :
    (dispatchDoDecompressData mode s sw samples sub da cnt si se out dest).hw.pool.ready
      = s.pool.ready := by
  rcases hsw : swDoDecompressData sw si se with ⟨v, sw1⟩
  cases mode with
  | Synchronous =>
    cases hready : s.pool.ready with
    | false => cases v <;> simp [dispatchDoDecompressData, hready, hsw]
    | true =>
      have hr := hwSubmit_ready s samples sub
      by_cases hcr : (hwDoDecompressDataAsynchronous s samples sub).ret = RET_ERROR
      · cases v <;> simp [dispatchDoDecompressData, hready, hcr, hsw, hr]
      · have hf := flush_ready da cnt (hwDoDecompressDataAsynchronous s samples sub).st
        simp [dispatchDoDecompressData, hready, hcr, hf, hr]
  | Asynchronous =>
    cases hready : s.pool.ready with
    | false => cases v <;> simp [dispatchDoDecompressData, hready, hsw]
    | true =>
      have hr := hwSubmit_ready s samples sub
      by_cases hcr : (hwDoDecompressDataAsynchronous s samples sub).ret = RET_ERROR
      · cases v <;> simp [dispatchDoDecompressData, hready, hcr, hsw, hr]
      · simp [dispatchDoDecompressData, hready, hcr, hr]
  | SoftwareFallback => cases v <;> simp [dispatchDoDecompressData, hsw]

/-- C6: if any slot initialization fails during pool construction then
`ready` is false; no pool, hardware-codec, flush or dispatch operation ever
changes `ready` (so it remains false for the rest of the process — only the
constructor can set it, and teardown only sets it to false); `acquireJob`
returns null whenever `ready` is false; and with `ready = false` every
dispatch compress and every dispatch decompress (all three modes) completes
entirely via the software codec: the software codec is invoked, the hardware
codec is not, and the compress result is exactly the software codec's. -/
theorem C6_init_failure_permanent_software_fallback :
    (∀ (f : Nat → QplStatus) (i : Nat), i < MAX_HW_JOB_NUMBER →
      f i ≠ QplStatus.ok → (poolInit f).ready = false)
    ∧ (∀ (s : PoolState) (g : Nat → Nat), (acquireJob s g).2.1.ready = s.ready)
    ∧ (∀ (id : Nat) (s : PoolState), (releaseJob id s).ready = s.ready)
    ∧ (∀ (pool : PoolState) (samples : Nat → Nat) (e : QplStatus) (t : Nat),
        (hwDoCompressData pool samples e t).pool.ready = pool.ready)
    ∧ (∀ (s : HWState) (samples : Nat → Nat) (sub : QplStatus),
        (hwDoDecompressDataAsynchronous s samples sub).st.pool.ready
          = s.pool.ready)
    ∧ (∀ (da cnt : Nat → Nat) (s : HWState),
        (flushAsynchronousDecompressRequests da cnt s).1.pool.ready
          = s.pool.ready)
    ∧ (∀ (pool : PoolState) (sw : SWState) (samples : Nat → Nat)
        (he si se : QplStatus) (ht st : Nat),
        (dispatchDoCompressData pool sw samples he ht si se st).pool.ready
          = pool.ready)
    ∧ (∀ (mode : CodecMode) (s : HWState) (sw : SWState) (samples : Nat → Nat)
        (sub : QplStatus) (da cnt : Nat → Nat) (si se : QplStatus)
        (out dest : List Nat),
        (dispatchDoDecompressData mode s sw samples sub da cnt si se
          out dest).hw.pool.ready = s.pool.ready)
    ∧ (∀ (s : PoolState) (g : Nat → Nat), s.ready = false →
        (acquireJob s g).1 = none)
    ∧ (∀ (pool : PoolState) (sw : SWState) (samples : Nat → Nat)
        (he si se : QplStatus) (ht st : Nat), pool.ready = false →
        (dispatchDoCompressData pool sw samples he ht si se st).usedSW = true
        ∧ (dispatchDoCompressData pool sw samples he ht si se st).usedHW = false
        ∧ (dispatchDoCompressData pool sw samples he ht si se st).value
            = (swDoCompressData sw si se st).1)
    ∧ (∀ (mode : CodecMode) (s : HWState) (sw : SWState) (samples : Nat → Nat)
        (sub : QplStatus) (da cnt : Nat → Nat) (si se : QplStatus)
        (out dest : List Nat), s.pool.ready = false →
        (dispatchDoDecompressData mode s sw samples sub da cnt si se
          out dest).usedSW = true
        ∧ (dispatchDoDecompressData mode s sw samples sub da cnt si se
          out dest).usedHW = false) := by
  refine ⟨?_, ?_, ?_, ?_, ?_, ?_, ?_, ?_, ?_, ?_, ?_⟩
  · intro f i hi hfail
    exact poolInitGo_fail f MAX_HW_JOB_NUMBER (fun _ => false) 0 i
      (Nat.zero_le i) (by omega) hfail
  · exact acquireJob_ready_preserved
  · exact releaseJob_ready
  · exact hwDoCompressData_ready
  · exact hwSubmit_ready
  · exact flush_ready
  · exact dispatchCompress_ready
  · exact dispatchDecompress_ready
  · intro s g hready
    rw [acquireJob_not_ready s g hready]
  · intro pool sw samples he si se ht st hready
    rcases hsw : swDoCompressData sw si se st with ⟨v, sw1⟩
    refine ⟨?_, ?_, ?_⟩ <;> simp [dispatchDoCompressData, hready, hsw]
  · intro mode s sw samples sub da cnt si se out dest hready
    rcases hsw : swDoDecompressData sw si se with ⟨v, sw1⟩
    cases mode with
    | Synchronous =>
      refine ⟨?_, ?_⟩ <;> cases v <;>
        simp [dispatchDoDecompressData, hready, hsw]
    | Asynchronous =>
      refine ⟨?_, ?_⟩ <;> cases v <;>
        simp [dispatchDoDecompressData, hready, hsw]
    | SoftwareFallback =>
      refine ⟨?_, ?_⟩ <;> cases v <;>
        simp [dispatchDoDecompressData, hready, hsw]

/-- Witness for C6 at concrete inputs: an init-status stream that fails at
slot 0 yields `ready = false`; with a not-ready pool, acquire returns null
and both dispatch paths run entirely through the software codec. -/
theorem C6_witness :
    (poolInit (fun _ => QplStatus.err 1)).ready = false
    ∧ (acquireJob ⟨false, fun _ => false⟩ (fun _ => 0)).1 = none
    ∧ ((dispatchDoCompressData ⟨false, fun _ => false⟩ ⟨true⟩ (fun _ => 0)
        QplStatus.ok 5 QplStatus.ok QplStatus.ok 7).usedSW = true
      ∧ (dispatchDoCompressData ⟨false, fun _ => false⟩ ⟨true⟩ (fun _ => 0)
        QplStatus.ok 5 QplStatus.ok QplStatus.ok 7).usedHW = false
      ∧ (dispatchDoCompressData ⟨false, fun _ => false⟩ ⟨true⟩ (fun _ => 0)
        QplStatus.ok 5 QplStatus.ok QplStatus.ok 7).value
          = (swDoCompressData ⟨true⟩ QplStatus.ok QplStatus.ok 7).1)
    ∧ ((dispatchDoDecompressData CodecMode.Asynchronous
          ⟨⟨false, fun _ => false⟩, []⟩ ⟨true⟩ (fun _ => 0) QplStatus.ok
          (fun _ => 0) (fun _ => 0) QplStatus.ok QplStatus.ok [1] [2]).usedSW = true
      ∧ (dispatchDoDecompressData CodecMode.Asynchronous
          ⟨⟨false, fun _ => false⟩, []⟩ ⟨true⟩ (fun _ => 0) QplStatus.ok
          (fun _ => 0) (fun _ => 0) QplStatus.ok QplStatus.ok [1] [2]).usedHW = false) :=
  ⟨C6_init_failure_permanent_software_fallback.1 (fun _ => QplStatus.err 1) 0
      (by decide) (by decide),
    C6_init_failure_permanent_software_fallback.2.2.2.2.2.2.2.2.1
      ⟨false, fun _ => false⟩ (fun _ => 0) rfl,
    C6_init_failure_permanent_software_fallback.2.2.2.2.2.2.2.2.2.1
      ⟨false, fun _ => false⟩ ⟨true⟩ (fun _ => 0) QplStatus.ok QplStatus.ok
      QplStatus.ok 5 7 rfl,
    C6_init_failure_permanent_software_fallback.2.2.2.2.2.2.2.2.2.2
      CodecMode.Asynchronous ⟨⟨false, fun _ => false⟩, []⟩ ⟨true⟩ (fun _ => 0)
      QplStatus.ok (fun _ => 0) (fun _ => 0) QplStatus.ok QplStatus.ok [1] [2] rfl⟩

/-! ## Claim C9: in-flight map entries keep their slot locks held -/

theorem releaseJob_locks_ne (pool1 : PoolState) (i id j : Nat)
    (hready : pool1.ready = true) (hidx : MAX_HW_JOB_NUMBER - id = i)
    (hj : j ≠ i) : (releaseJob id pool1).locks j = pool1.locks j := by
  simp [releaseJob, hready, unLockJob, hidx, Function.update_apply, hj]

theorem hwCompress_preserves_MapLocksHeld (pool : PoolState)
    (map : List (Nat × Nat)) (samples : Nat → Nat) (e : QplStatus) (t : Nat)
    (hs : ∀ k, samples k < MAX_HW_JOB_NUMBER)
    (hinv : MapLocksHeld ⟨pool, map⟩) :
    MapLocksHeld ⟨(hwDoCompressData pool samples e t).pool, map⟩ := by
  rcases hacq : acquireJob pool samples with ⟨o, pool1, tr⟩
  cases o with
  | none =>
    have hst := acquireJob_none_state pool samples pool1 tr hacq
    subst hst
    intro x hx
    have hxt := hinv x hx
    cases e <;> simpa [hwDoCompressData, hacq] using hxt
  | some ij =>
    obtain ⟨hready, hfree, hid, hp1r, hp1l, k, hk⟩ :=
      acquireJob_some pool samples ij.1 ij.2 pool1 tr (by rw [hacq])
    have hi : ij.1 < MAX_HW_JOB_NUMBER := hk ▸ hs k
    have hidx : MAX_HW_JOB_NUMBER - ij.2 = ij.1 := by omega
    have hready1 : pool1.ready = true := hp1r.trans hready
    intro x hx
    have hxt : pool.locks x.2 = true := hinv x hx
    have hne : x.2 ≠ ij.1 := fun hc => by
      rw [hc] at hxt
      rw [hxt] at hfree
      cases hfree
    have hrel : (releaseJob ij.2 pool1).locks x.2 = pool.locks x.2 := by
      rw [releaseJob_locks_ne pool1 ij.1 ij.2 x.2 hready1 hidx hne, hp1l]
      simp [Function.update_apply, hne]
    cases e <;> simpa [hwDoCompressData, hacq, hrel] using hxt

theorem hwSubmit_preserves_MapLocksHeld (s : HWState) (samples : Nat → Nat)
    (sub : QplStatus) (hs : ∀ k, samples k < MAX_HW_JOB_NUMBER)
    (hinv : MapLocksHeld s) :
    MapLocksHeld (hwDoDecompressDataAsynchronous s samples sub).st := by
  rcases hacq : acquireJob s.pool samples with ⟨o, pool1, tr⟩
  cases o with
  | none =>
    have hst := acquireJob_none_state s.pool samples pool1 tr hacq
    intro x hx
    simp only [hwDoDecompressDataAsynchronous, hacq] at hx ⊢
    exact hst ▸ hinv x hx
  | some ij =>
    obtain ⟨hready, hfree, hid, hp1r, hp1l, k, hk⟩ :=
      acquireJob_some s.pool samples ij.1 ij.2 pool1 tr (by rw [hacq])
    have hi : ij.1 < MAX_HW_JOB_NUMBER := hk ▸ hs k
    have hidx : MAX_HW_JOB_NUMBER - ij.2 = ij.1 := by omega
    have hready1 : pool1.ready = true := hp1r.trans hready
    cases sub with
    | ok =>
      intro x hx
      simp only [hwDoDecompressDataAsynchronous, hacq] at hx ⊢
      rcases mem_mapInsert (ij.2, ij.1) x s.map hx with hxe | hxm
      · subst hxe
        rw [hp1l]
        simp [Function.update_apply]
      · have hxt : s.pool.locks x.2 = true := hinv x hxm
        rw [hp1l]
        simp [Function.update_apply]
        exact Or.inr hxt
    | beingProcessed =>
      intro x hx
      simp only [hwDoDecompressDataAsynchronous, hacq] at hx ⊢
      have hxt : s.pool.locks x.2 = true := hinv x hx
      have hne : x.2 ≠ ij.1 := fun hc => by
        rw [hc] at hxt
        rw [hxt] at hfree
        cases hfree
      rw [releaseJob_locks_ne pool1 ij.1 ij.2 x.2 hready1 hidx hne, hp1l]
      simpa [Function.update_apply, hne] using hxt
    | err c =>
      intro x hx
      simp only [hwDoDecompressDataAsynchronous, hacq] at hx ⊢
      have hxt : s.pool.locks x.2 = true := hinv x hx
      have hne : x.2 ≠ ij.1 := fun hc => by
        rw [hc] at hxt
        rw [hxt] at hfree
        cases hfree
      rw [releaseJob_locks_ne pool1 ij.1 ij.2 x.2 hready1 hidx hne, hp1l]
      simpa [Function.update_apply, hne] using hxt

theorem flush_MapLocksHeld (da cnt : Nat → Nat) (s : HWState) :
    MapLocksHeld (flushAsynchronousDecompressRequests da cnt s).1 := by
  intro x hx
  rw [flush_map_nil da cnt s] at hx
  cases hx

theorem dispatchDecompress_preserves_MapLocksHeld (mode : CodecMode)
    (s : HWState) (sw : SWState) (samples : Nat → Nat) (sub : QplStatus)
    (da cnt : Nat → Nat) (si se : QplStatus) (out dest : List Nat)
    (hs : ∀ k, samples k < MAX_HW_JOB_NUMBER) (hinv : MapLocksHeld s) :
    MapLocksHeld
      (dispatchDoDecompressData mode s sw samples sub da cnt si se out dest).hw := by
  rcases hsw : swDoDecompressData sw si se with ⟨v, sw1⟩
  have hsubinv := hwSubmit_preserves_MapLocksHeld s samples sub hs hinv
  have hflushinv := flush_MapLocksHeld da cnt
    (hwDoDecompressDataAsynchronous s samples sub).st
  cases mode with
  | Synchronous =>
    cases hready : s.pool.ready with
    | false => cases v <;> simpa [dispatchDoDecompressData, hready, hsw] using hinv
    | true =>
      by_cases hcr : (hwDoDecompressDataAsynchronous s samples sub).ret = RET_ERROR
      · cases v <;>
          simpa [dispatchDoDecompressData, hready, hcr, hsw] using hsubinv
      · simpa [dispatchDoDecompressData, hready, hcr] using hflushinv
  | Asynchronous =>
    cases hready : s.pool.ready with
    | false => cases v <;> simpa [dispatchDoDecompressData, hready, hsw] using hinv
    | true =>
      by_cases hcr : (hwDoDecompressDataAsynchronous s samples sub).ret = RET_ERROR
      · cases v <;>
          simpa [dispatchDoDecompressData, hready, hcr, hsw] using hsubinv
      · simpa [dispatchDoDecompressData, hready, hcr] using hsubinv
  | SoftwareFallback =>
    cases v <;> simpa [dispatchDoDecompressData, hsw] using hinv

/-- C9: every pool and codec operation preserves the invariant that the slot
lock of every entry `(id, slot)` of a hardware codec's in-flight map is held:
hardware compress (which acquires and releases a disjoint slot), asynchronous
submit (which on success adds an entry whose lock it just acquired and on
failure releases only that fresh slot), drain (which empties the map), and
the dispatch decompress paths all preserve `MapLocksHeld`; moreover a
successful submit leaves the acquired lock `true` and its entry present in
the map. -/
theorem C9_inflight_entries_locks_held :
    (∀ (pool : PoolState) (map : List (Nat × Nat)) (samples : Nat → Nat)
        (e : QplStatus) (t : Nat), (∀ k, samples k < MAX_HW_JOB_NUMBER) →
        MapLocksHeld ⟨pool, map⟩ →
        MapLocksHeld ⟨(hwDoCompressData pool samples e t).pool, map⟩)
    ∧ (∀ (s : HWState) (samples : Nat → Nat) (sub : QplStatus),
        (∀ k, samples k < MAX_HW_JOB_NUMBER) → MapLocksHeld s →
        MapLocksHeld (hwDoDecompressDataAsynchronous s samples sub).st)
    ∧ (∀ (s : HWState) (samples : Nat → Nat) (ij : Nat × Nat)
        (pool1 : PoolState) (tr : Nat),
        acquireJob s.pool samples = (some ij, pool1, tr) →
        (∀ x ∈ s.map, x.1 ≠ ij.2) →
        (hwDoDecompressDataAsynchronous s samples QplStatus.ok).st.pool.locks ij.1
            = true
        ∧ (ij.2, ij.1)
            ∈ (hwDoDecompressDataAsynchronous s samples QplStatus.ok).st.map)
    ∧ (∀ (da cnt : Nat → Nat) (s : HWState),
        MapLocksHeld (flushAsynchronousDecompressRequests da cnt s).1)
    ∧ (∀ (mode : CodecMode) (s : HWState) (sw : SWState) (samples : Nat → Nat)
        (sub : QplStatus) (da cnt : Nat → Nat) (si se : QplStatus)
        (out dest : List Nat), (∀ k, samples k < MAX_HW_JOB_NUMBER) →
        MapLocksHeld s →
        MapLocksHeld (dispatchDoDecompressData mode s sw samples sub da cnt
          si se out dest).hw) := by
  refine ⟨hwCompress_preserves_MapLocksHeld, hwSubmit_preserves_MapLocksHeld,
    ?_, flush_MapLocksHeld, dispatchDecompress_preserves_MapLocksHeld⟩
  intro s samples ij pool1 tr hacq hkeys
  obtain ⟨hready, hfree, hid, hp1r, hp1l, k, hk⟩ :=
    acquireJob_some s.pool samples ij.1 ij.2 pool1 tr (by rw [hacq])
  constructor
  · simp only [hwDoDecompressDataAsynchronous, hacq]
    rw [hp1l]
    simp [Function.update_apply]
  · simp only [hwDoDecompressDataAsynchronous, hacq]
    exact ((mapInsert_perm (ij.2, ij.1) s.map hkeys).mem_iff).mpr
      (List.mem_cons_self _ _)

/-- Witness for C9 at concrete inputs: a ready all-free pool with an empty
in-flight map; the invariant holds after hardware compress, after a
successful submit (whose entry `(1022, 2)` is present with its lock held),
after drain, and after a Synchronous-mode dispatch decompress. -/
theorem C9_witness :
    MapLocksHeld ⟨(hwDoCompressData ⟨true, fun _ => false⟩ (fun _ => 2)
        QplStatus.ok 5).pool, []⟩
    ∧ MapLocksHeld (hwDoDecompressDataAsynchronous
        ⟨⟨true, fun _ => false⟩, []⟩ (fun _ => 2) QplStatus.ok).st
    ∧ ((hwDoDecompressDataAsynchronous ⟨⟨true, fun _ => false⟩, []⟩
        (fun _ => 2) QplStatus.ok).st.pool.locks 2 = true
      ∧ (1022, 2) ∈ (hwDoDecompressDataAsynchronous
        ⟨⟨true, fun _ => false⟩, []⟩ (fun _ => 2) QplStatus.ok).st.map)
    ∧ MapLocksHeld (flushAsynchronousDecompressRequests (fun _ => 0)
        (fun _ => 0) ⟨⟨true, fun _ => false⟩, [(1000, 24)]⟩).1
    ∧ MapLocksHeld (dispatchDoDecompressData CodecMode.Synchronous
        ⟨⟨true, fun _ => false⟩, []⟩ ⟨true⟩ (fun _ => 2) QplStatus.ok
        (fun _ => 1) (fun _ => 0) QplStatus.ok QplStatus.ok [1] [2]).hw :=
  ⟨C9_inflight_entries_locks_held.1 ⟨true, fun _ => false⟩ [] (fun _ => 2)
      QplStatus.ok 5 (fun _ => show (2 : Nat) < MAX_HW_JOB_NUMBER by decide)
      (fun x hx => nomatch hx),
    C9_inflight_entries_locks_held.2.1 ⟨⟨true, fun _ => false⟩, []⟩
      (fun _ => 2) QplStatus.ok
      (fun _ => show (2 : Nat) < MAX_HW_JOB_NUMBER by decide)
      (fun x hx => nomatch hx),
    C9_inflight_entries_locks_held.2.2.1 ⟨⟨true, fun _ => false⟩, []⟩
      (fun _ => 2) (2, 1022) ⟨true, Function.update (fun _ => false) 2 true⟩ 1
      rfl (fun x hx => nomatch hx),
    C9_inflight_entries_locks_held.2.2.2.1 (fun _ => 0) (fun _ => 0)
      ⟨⟨true, fun _ => false⟩, [(1000, 24)]⟩,
    C9_inflight_entries_locks_held.2.2.2.2 CodecMode.Synchronous
      ⟨⟨true, fun _ => false⟩, []⟩ ⟨true⟩ (fun _ => 2) QplStatus.ok
      (fun _ => 1) (fun _ => 0) QplStatus.ok QplStatus.ok [1] [2]
      (fun _ => show (2 : Nat) < MAX_HW_JOB_NUMBER by decide)
      (fun x hx => nomatch hx)⟩
